import Mathlib

/-!
Verification of the audio pipeline of the Daily-Briefing-AI repository
(src/unnamed/part_000 = audioUtils, src/components/Player.tsx).

The TypeScript source is shallowly embedded: byte buffers become lists of
naturals, 16-bit PCM samples become integers, exact sample arithmetic is
carried out over the rational numbers, and the trigonometric synthesis over
the real numbers.  Fallible operations return Except.  Per-sample calls to
Math.random are modelled by an explicit noise parameter in [0, 1).
-/

namespace DailyBriefing

/-! ## Byte-level helpers: little-endian integer fields (DataView setUint16 and
setUint32 with littleEndian = true) and ASCII strings (writeString). -/

/-- Little-endian 16-bit field, as written by DataView.setUint16 (value
truncated to 16 bits). -/
def u16le (n : ℕ) : List ℕ := [n % 256, n / 256 % 256]

/-- Little-endian 32-bit field, as written by DataView.setUint32 (value
truncated to 32 bits). -/
def u32le (n : ℕ) : List ℕ := [n % 256, n / 256 % 256, n / 2 ^ 16 % 256, n / 2 ^ 24 % 256]

/-- ASCII bytes of a string, as written by writeString via charCodeAt and
setUint8 (each code unit stored modulo 256). -/
def asciiBytes (s : String) : List ℕ := s.toList.map fun c => c.toNat % 256

/-! ## createWavUrl (src/unnamed/part_000 lines 135-162)

The no-music fast path: a 44-byte RIFF/WAVE header for mono 16-bit PCM is
built in an ArrayBuffer, and the blob is the header followed by the
base64-decoded bytes unchanged (Blob of [view, bytes]).  The base64 decoding
step (decodeBase64 / atob) is common to both sides of every claim about this
function, so the byte list it produces is taken as the input here. -/

/-- The 44-byte header written by createWavUrl for a data payload of
dataLen bytes: mono (1 channel), 16 bits per sample, block align 2,
byte rate sampleRate * 2. -/
def createWavHeader (dataLen sampleRate : ℕ) : List ℕ :=
  asciiBytes "RIFF" ++ u32le (36 + dataLen) ++
  asciiBytes "WAVE" ++
  asciiBytes "fmt " ++ u32le 16 ++ u16le 1 ++ u16le 1 ++
  u32le sampleRate ++ u32le (sampleRate * 2) ++ u16le 2 ++ u16le 16 ++
  asciiBytes "data" ++ u32le dataLen

/-- The byte stream of the Blob produced by createWavUrl: header followed by
the decoded payload bytes, copied directly with no float round-trip. -/
def createWavUrlBytes (bytes : List ℕ) (sampleRate : ℕ) : List ℕ :=
  createWavHeader bytes.length sampleRate ++ bytes

theorem createWavHeader_length (dataLen sampleRate : ℕ) :
    (createWavHeader dataLen sampleRate).length = 44 := by
  simp [createWavHeader, asciiBytes, u32le, u16le]

/-! ## decodeBase64 + decodeAudioData (src/unnamed/part_000 lines 6-43)

decodeBase64 turns the base64 string into a Uint8Array; decodeAudioData then
constructs `new Int16Array(bytes.buffer)` over it.  Per ECMAScript, that
constructor throws a RangeError when the buffer's byte length is not a
multiple of 2; otherwise it views consecutive byte pairs as little-endian
signed 16-bit integers.  Each channel sample is dataInt16[i*numChannels + c]
divided by 32768. -/

/-- A little-endian byte pair read as a signed 16-bit integer
(Int16Array element view). -/
def toInt16 (lo hi : ℕ) : ℤ :=
  let v : ℕ := lo % 256 + 256 * (hi % 256)
  if v < 32768 then (v : ℤ) else (v : ℤ) - 65536

/-- Consecutive little-endian byte pairs as signed 16-bit integers, the
element sequence of `new Int16Array(bytes.buffer)` for an even-length
buffer. -/
def bytesToInt16s : List ℕ → List ℤ
  | lo :: hi :: rest => toInt16 lo hi :: bytesToInt16s rest
  | _ => []

/-- decodeAudioData: builds the Int16Array view (RangeError on odd byte
length, per the ECMAScript TypedArray constructor), computes
frameCount = dataInt16.length / numChannels, and fills each channel c with
dataInt16[i*numChannels + c] / 32768.0 for frames i < frameCount.  The
channel data of the resulting AudioBuffer is returned as a list of
per-channel sample lists. -/
def decodeAudioData (bytes : List ℕ) (numChannels : ℕ) :
    Except String (List (List ℚ)) :=
  if bytes.length % 2 ≠ 0 then
    .error "RangeError: byte length of Int16Array should be a multiple of 2"
  else
    let dataInt16 := bytesToInt16s bytes
    let frameCount := dataInt16.length / numChannels
    .ok ((List.range numChannels).map fun c =>
      (List.range frameCount).map fun i =>
        ((dataInt16.getD (i * numChannels + c) 0 : ℤ) : ℚ) / 32768)

/-- Claim C1: the no-music fast path (mixAudioWithMusic with style NO_MUSIC,
i.e. createWavUrl) copies the decoded voice bytes into the WAV data subchunk
byte-for-byte: for a payload of N int16 samples (an even number of bytes),
the bytes after the 44-byte header are exactly the decoded input bytes, and
the data-subchunk length field at offset 40 records their count. -/
theorem createWavUrl_data_roundtrip (bytes : List ℕ) (N : ℕ)
    (h : bytes.length = 2 * N) :
    List.drop 44 (createWavUrlBytes bytes 24000) = bytes ∧
    List.take 4 (List.drop 40 (createWavUrlBytes bytes 24000)) = u32le bytes.length := by
  constructor
  · rw [createWavUrlBytes, ← createWavHeader_length bytes.length 24000, List.drop_left]
  · rw [createWavUrlBytes, List.drop_append_of_le_length (by rw [createWavHeader_length]; norm_num)]
    have hdr : List.drop 40 (createWavHeader bytes.length 24000) = u32le bytes.length := by
      simp [createWavHeader, asciiBytes, u32le, u16le, List.drop_append_of_le_length]
    rw [hdr, List.take_append_of_le_length (by simp [u32le]), List.take_of_length_le (by simp [u32le])]

theorem createWavUrl_data_roundtrip_witness :
    List.drop 44 (createWavUrlBytes [1, 2, 3, 4] 24000) = [1, 2, 3, 4] :=
  (createWavUrl_data_roundtrip [1, 2, 3, 4] 2 (by decide)).1

/-- The per-sample decode formula of decodeAudioData: channel c, frame i of
the interleaved int16 data maps to dataInt16[i*numChannels + c] / 32768.0. -/
def decodedSample (data : List ℤ) (numChannels c i : ℕ) : ℚ :=
  ((data.getD (i * numChannels + c) 0 : ℤ) : ℚ) / 32768

/-- Evaluation of the decoder on a single mono 16-bit sample. -/
theorem decodeAudioData_two_bytes (lo hi : ℕ) :
    decodeAudioData [lo, hi] 1 = .ok [[((toInt16 lo hi : ℤ) : ℚ) / 32768]] := by
  simp [decodeAudioData, bytesToInt16s, List.range_succ, List.range_zero]

/-- Claim C3: the decoder produces sample int16[i*numChannels + c] / 32768.0
for channel c and frame i; concretely it maps -32768 (bytes 00 80) to -1.0,
0 (bytes 00 00) to 0.0 and 32767 (bytes FF 7F) to 32767/32768 = 0.999969...,
which is strictly below 1: an asymmetric scaling, not a symmetric clip. -/
theorem decodeAudioData_amplitude_mapping :
    (∀ (bytes : List ℕ) (nCh : ℕ) (chans : List (List ℚ)),
      decodeAudioData bytes nCh = .ok chans →
      ∀ c i, c < nCh → i < (bytesToInt16s bytes).length / nCh →
        (chans.getD c []).getD i 0 = decodedSample (bytesToInt16s bytes) nCh c i) ∧
    decodeAudioData [0x00, 0x80] 1 = .ok [[-1]] ∧
    decodeAudioData [0x00, 0x00] 1 = .ok [[0]] ∧
    decodeAudioData [0xFF, 0x7F] 1 = .ok [[32767 / 32768]] ∧
    ((32767 : ℚ) / 32768 ≠ 1) := by
  refine ⟨?_, ?_, ?_, ?_, by norm_num⟩
  · intro bytes nCh chans hok c i hc hi
    unfold decodeAudioData at hok
    split at hok
    · exact absurd hok (by simp)
    · simp only [Except.ok.injEq] at hok
      subst hok
      have h1 : ∀ (F : ℕ → List ℚ),
          ((List.range nCh).map F).getD c [] = F c := by
        intro F
        rw [List.getD_eq_getElem?_getD, List.getElem?_map, List.getElem?_range hc]
        rfl
      rw [h1]
      rw [List.getD_eq_getElem?_getD, List.getElem?_map, List.getElem?_range hi]
      rfl
  · rw [decodeAudioData_two_bytes]
    norm_num [toInt16]
  · rw [decodeAudioData_two_bytes]
    norm_num [toInt16]
  · rw [decodeAudioData_two_bytes]
    norm_num [toInt16]

theorem decodeAudioData_amplitude_mapping_witness :
    (([[(-1 : ℚ)]] : List (List ℚ)).getD 0 []).getD 0 0 =
      decodedSample (bytesToInt16s [0x00, 0x80]) 1 0 0 :=
  decodeAudioData_amplitude_mapping.1 [0x00, 0x80] 1 [[-1]]
    decodeAudioData_amplitude_mapping.2.1 0 0 (by decide) (by decide)

/-- Claim C4 counterexample: on a decoded payload of 3 bytes (not an even
multiple of the int16 sample size) the decoder does raise an error — the
Int16Array construction throws a RangeError — rather than truncating the
trailing partial sample and proceeding best-effort. -/
theorem decodeAudioData_odd_length_errors :
    decodeAudioData [0, 0, 0] 1 =
      .error "RangeError: byte length of Int16Array should be a multiple of 2" ∧
    ∀ chans, decodeAudioData [0, 0, 0] 1 ≠ .ok chans := by
  have h : decodeAudioData [0, 0, 0] 1 =
      .error "RangeError: byte length of Int16Array should be a multiple of 2" := rfl
  exact ⟨h, fun chans hc => by rw [h] at hc; exact absurd hc (by simp)⟩

/-- Claim C4 amended: the decoder raises a RangeError exactly when the decoded
byte length is odd (the Int16Array constructor over the whole buffer rejects
it); for even byte lengths it raises no error and decodes every complete
sample, with frameCount = sampleCount / numChannels. -/
theorem decodeAudioData_error_behavior (bytes : List ℕ) (nCh : ℕ) :
    (bytes.length % 2 = 1 → ∃ e, decodeAudioData bytes nCh = .error e) ∧
    (bytes.length % 2 = 0 → ∃ chans, decodeAudioData bytes nCh = .ok chans ∧
      chans.length = nCh ∧
      ∀ l ∈ chans, l.length = (bytesToInt16s bytes).length / nCh) := by
  constructor
  · intro h
    refine ⟨"RangeError: byte length of Int16Array should be a multiple of 2", ?_⟩
    unfold decodeAudioData
    rw [if_pos (by omega)]
  · intro h
    refine ⟨(List.range nCh).map fun c =>
        (List.range ((bytesToInt16s bytes).length / nCh)).map fun i =>
          (((bytesToInt16s bytes).getD (i * nCh + c) 0 : ℤ) : ℚ) / 32768, ?_, ?_, ?_⟩
    · unfold decodeAudioData
      rw [if_neg (by omega)]
    · simp
    · intro l hl
      simp only [List.mem_map] at hl
      obtain ⟨c, _, rfl⟩ := hl
      simp

theorem decodeAudioData_error_behavior_witness :
    ∃ e, decodeAudioData [7] 1 = .error e :=
  (decodeAudioData_error_behavior [7] 1).1 (by decide)

/-! ## floatTo16BitPCM (src/unnamed/part_000 lines 124-129)

The encoder clamps each float sample to [-1, 1], scales the negative branch
by 0x8000 = 32768 and the non-negative branch by 0x7FFF = 32767, and stores
the result with DataView.setInt16, whose ECMAScript conversion truncates the
number toward zero and wraps it modulo 2^16 into a signed 16-bit value. -/

/-- Math.max(-1, Math.min(1, s)). -/
def clamp1 (s : ℚ) : ℚ := max (-1) (min 1 s)

/-- ECMAScript number-to-integer conversion used by setInt16: truncation
toward zero. -/
def jsTrunc (q : ℚ) : ℤ := if q < 0 then ⌈q⌉ else ⌊q⌋

/-- The signed wrap of setInt16: the truncated value modulo 2^16, read back
as a signed 16-bit integer. -/
def toInt16Wrap (z : ℤ) : ℤ := (z + 32768) % 65536 - 32768

/-- floatTo16BitPCM on one sample: the stored int16 value
(s < 0 ? s * 0x8000 : s * 0x7FFF after clamping). -/
def encode16 (s : ℚ) : ℤ :=
  toInt16Wrap (jsTrunc (if clamp1 s < 0 then clamp1 s * 32768 else clamp1 s * 32767))

/-- The decoder's inverse mapping on one stored sample (decodeAudioData):
value / 32768. -/
def decode16 (v : ℤ) : ℚ := (v : ℤ) / (32768 : ℚ)

/-- Claim C2 counterexample: at s = 65535/65536 (a value representable as a
float in [-1, 1]) the encoder stores ⌊s * 32767⌋ = 32766, the decoder returns
32766/32768, and the round-trip error is 3/65536, which exceeds one
quantization step 1/32768 = 2/65536. -/
theorem encode_decode_exceeds_one_step :
    encode16 (65535 / 65536) = 32766 ∧
    decode16 (encode16 (65535 / 65536)) = 32766 / 32768 ∧
    ¬ |decode16 (encode16 (65535 / 65536)) - 65535 / 65536| ≤ 1 / 32768 := by
  have hclamp : clamp1 (65535 / 65536) = 65535 / 65536 := by
    rw [clamp1, min_eq_right (by norm_num), max_eq_right (by norm_num)]
  have hfloor : ⌊(65535 / 65536 : ℚ) * 32767⌋ = 32766 := by
    rw [Int.floor_eq_iff]
    constructor
    · push_cast
      norm_num
    · push_cast
      norm_num
  have henc : encode16 (65535 / 65536) = 32766 := by
    rw [encode16, hclamp, if_neg (by norm_num), jsTrunc, if_neg (by norm_num), hfloor]
    decide
  have hdec : decode16 (encode16 (65535 / 65536)) = 32766 / 32768 := by
    rw [henc, decode16]
    norm_num
  refine ⟨henc, hdec, ?_⟩
  rw [hdec, show (32766 : ℚ) / 32768 - 65535 / 65536 = -(3 / 65536) from by norm_num,
    abs_neg, abs_of_nonneg (by norm_num)]
  norm_num

/-- Claim C2 amended: the encoder quantizes by clamping to [-1, 1] and writing
(s < 0 ? s*32768 : s*32767) truncated toward zero as a little-endian int16;
for s in [-1, 1] the round-trip decode(encode(s)) differs from s by strictly
less than two quantization steps, 2/32768 = 1/16384 (the positive branch
scales by 32767 while decode divides by 32768, allowing errors up to
(s+1)/32768), and on the non-positive half the one-step bound 1/32768 holds. -/
theorem encode_decode_error_bound (s : ℚ) (h1 : -1 ≤ s) (h2 : s ≤ 1) :
    |decode16 (encode16 s) - s| < 1 / 16384 ∧
    (s ≤ 0 → |decode16 (encode16 s) - s| ≤ 1 / 32768) := by
  have hc : clamp1 s = s := by
    rw [clamp1, min_eq_right h2, max_eq_right h1]
  by_cases hs : s < 0
  · -- negative branch: stored value is the ceiling (truncation toward zero)
    have hlb : (-32768 : ℤ) ≤ ⌈s * 32768⌉ := by
      have : ⌈((-32768 : ℤ) : ℚ)⌉ ≤ ⌈s * 32768⌉ := Int.ceil_le_ceil (by push_cast; nlinarith)
      simpa using this
    have hub : ⌈s * 32768⌉ ≤ 0 := Int.ceil_le.mpr (by push_cast; nlinarith)
    have hval : encode16 s = ⌈s * 32768⌉ := by
      rw [encode16, hc, if_pos hs, jsTrunc, if_pos (by nlinarith), toInt16Wrap,
        Int.emod_eq_of_lt (by omega) (by omega)]
      omega
    have hceil_lb : s * 32768 ≤ (⌈s * 32768⌉ : ℚ) := Int.le_ceil _
    have hceil_ub : (⌈s * 32768⌉ : ℚ) < s * 32768 + 1 := Int.ceil_lt_add_one _
    have key : decode16 (encode16 s) - s = ((⌈s * 32768⌉ : ℚ) - s * 32768) / 32768 := by
      rw [hval, decode16]
      push_cast
      ring
    have habs : |decode16 (encode16 s) - s| < 1 / 32768 := by
      rw [key, abs_of_nonneg (div_nonneg (by linarith) (by norm_num)),
        div_lt_div_iff (by norm_num) (by norm_num)]
      nlinarith
    exact ⟨lt_trans habs (by norm_num), fun _ => le_of_lt habs⟩
  · -- non-negative branch: stored value is the floor of s * 32767
    push_neg at hs
    have hlb : (0 : ℤ) ≤ ⌊s * 32767⌋ := Int.floor_nonneg.mpr (by nlinarith)
    have hub : ⌊s * 32767⌋ ≤ 32767 := by
      have : ⌊s * 32767⌋ ≤ ⌊((32767 : ℤ) : ℚ)⌋ := Int.floor_le_floor (by push_cast; nlinarith)
      simpa using this
    have hval : encode16 s = ⌊s * 32767⌋ := by
      rw [encode16, hc, if_neg (by simpa using not_lt.mpr hs), jsTrunc,
        if_neg (by simp only [not_lt]; nlinarith), toInt16Wrap,
        Int.emod_eq_of_lt (by omega) (by omega)]
      omega
    have hfl_ub : (⌊s * 32767⌋ : ℚ) ≤ s * 32767 := Int.floor_le _
    have hfl_lb : s * 32767 - 1 < (⌊s * 32767⌋ : ℚ) := Int.sub_one_lt_floor _
    have hnum : (0 : ℚ) ≤ s * 32768 - (⌊s * 32767⌋ : ℚ) := by nlinarith
    have key : decode16 (encode16 s) - s = -((s * 32768 - (⌊s * 32767⌋ : ℚ)) / 32768) := by
      rw [hval, decode16]
      push_cast
      ring
    have habs : |decode16 (encode16 s) - s| < 1 / 16384 := by
      rw [key, abs_neg, abs_of_nonneg (div_nonneg hnum (by norm_num)),
        div_lt_div_iff (by norm_num) (by norm_num)]
      nlinarith
    refine ⟨habs, fun hs0 => ?_⟩
    have hz : s = 0 := le_antisymm hs0 hs
    subst hz
    have : (⌊(0 : ℚ) * 32767⌋ : ℤ) = 0 := by norm_num
    rw [key, this]
    push_cast
    norm_num

theorem encode_decode_error_bound_witness :
    |decode16 (encode16 (1 / 2)) - 1 / 2| < 1 / 16384 :=
  (encode_decode_error_bound (1 / 2) (by norm_num) (by norm_num)).1

/-! ## mixAudioWithMusic durations (src/unnamed/part_000 lines 253-301)

The mixing path decodes the voice (frameCount frames at 24000 Hz, duration
frameCount / 24000 s), creates an OfflineAudioContext of length
duration * 44100 at 44100 Hz (the Web IDL unsigned-long conversion truncates
a fractional length), and generateBackgroundTrack allocates its buffer with
createBuffer(2, sampleRate * duration, sampleRate) in that same context. -/

/-- Duration of the decoded voice buffer: frameCount / sampleRate at the
fixed 24000 Hz decode rate. -/
def voiceDuration (frames : ℕ) : ℚ := (frames : ℚ) / 24000

/-- Frame length of the render context: duration * 44100, truncated to an
integer by the Web IDL unsigned-long conversion. -/
def renderLength (frames : ℕ) : ℕ := (⌊voiceDuration frames * 44100⌋).toNat

/-- Frame length of the generated music buffer:
createBuffer(2, sampleRate * duration, sampleRate) with sampleRate 44100. -/
def musicFrameCount (frames : ℕ) : ℕ := (⌊(44100 : ℚ) * voiceDuration frames⌋).toNat

/-- Duration of the rendered (mixed) output: renderLength frames at the
44100 Hz render rate. -/
def mixOutputDuration (frames : ℕ) : ℚ := (renderLength frames : ℚ) / 44100

/-- Claim C5: for every voice buffer the mixed output's duration equals the
voice duration to within one sample period 1/44100: the render target is
fixed at voiceDuration * 44100 frames at 44100 Hz, the music buffer is
allocated with exactly the same frame count (so it can neither extend nor
truncate the output), and on the no-music fast path the WAV encodes the
2*frames data bytes at block align 2 and 24000 Hz, an exactly equal
duration. -/
theorem mix_duration_preservation (frames : ℕ) :
    musicFrameCount frames = renderLength frames ∧
    voiceDuration frames - 1 / 44100 < mixOutputDuration frames ∧
    mixOutputDuration frames ≤ voiceDuration frames ∧
    ((2 * frames : ℚ) / 2) / 24000 = voiceDuration frames := by
  have hx : (0 : ℚ) ≤ voiceDuration frames * 44100 := by
    have : (0 : ℚ) ≤ (frames : ℚ) := Nat.cast_nonneg frames
    rw [voiceDuration]
    positivity
  have hfl : (0 : ℤ) ≤ ⌊voiceDuration frames * 44100⌋ := Int.floor_nonneg.mpr hx
  have hcast : ((renderLength frames : ℕ) : ℚ) = ((⌊voiceDuration frames * 44100⌋ : ℤ) : ℚ) := by
    rw [renderLength]
    exact_mod_cast Int.toNat_of_nonneg hfl
  refine ⟨?_, ?_, ?_, ?_⟩
  · rw [musicFrameCount, renderLength, mul_comm]
  · have hub : voiceDuration frames * 44100 < (⌊voiceDuration frames * 44100⌋ : ℚ) + 1 :=
      Int.lt_floor_add_one _
    rw [mixOutputDuration, hcast, sub_lt_iff_lt_add, div_add_div_same,
      lt_div_iff (by norm_num : (0 : ℚ) < 44100)]
    linarith [hub]
  · have hlb : ((⌊voiceDuration frames * 44100⌋ : ℤ) : ℚ) ≤ voiceDuration frames * 44100 :=
      Int.floor_le _
    rw [mixOutputDuration, hcast, div_le_iff (by norm_num : (0 : ℚ) < 44100)]
    linarith
  · rw [voiceDuration]
    ring

/-! ## generateBackgroundTrack (src/unnamed/part_000 lines 167-248)

The fade envelope is computed per sample from time = i / sampleRate:
envelope starts at 1, is overwritten by time/0.5 when time < 0.5, then
overwritten by (duration - time)/1.5 when time > duration - 1.5, and finally
clamped from below by Math.max(0, envelope).  Because the fade-out test is
evaluated after the fade-in test, it wins wherever the two windows overlap.
The definition is polymorphic so that exact statements can be made over the
rationals and the trigonometric styles over the reals. -/

/-- The per-sample fade envelope of generateBackgroundTrack. -/
def envelope {α : Type} [LinearOrderedField α] (duration time : α) : α :=
  max 0 (if duration - 3/2 < time then (duration - time) / (3/2)
         else if time < 1/2 then time / (1/2) else 1)

/-- Claim C6 counterexample: at duration 1 (a duration below 2 s, so the
fade-out window covers the whole buffer and overrides the fade-in), the
envelope at t = 0 is 2/3, not 0, and it falls from 2/3 to 1/3 over [0, 0.5]
instead of rising monotonically to full amplitude 1 by t = 0.5. -/
theorem envelope_short_duration_cex :
    envelope (1 : ℚ) 0 = 2/3 ∧
    envelope (1 : ℚ) (1/2) = 1/3 ∧
    envelope (1 : ℚ) (1/2) < envelope (1 : ℚ) 0 ∧
    envelope (1 : ℚ) 0 ≠ 0 ∧
    envelope (1 : ℚ) (1/2) ≠ 1 := by
  have h0 : envelope (1 : ℚ) 0 = 2/3 := by
    rw [envelope, if_pos (by norm_num : (1 : ℚ) - 3/2 < 0),
      max_eq_right (by norm_num : (0 : ℚ) ≤ (1 - 0) / (3/2))]
    norm_num
  have hh : envelope (1 : ℚ) (1/2) = 1/3 := by
    rw [envelope, if_pos (by norm_num : (1 : ℚ) - 3/2 < 1/2),
      max_eq_right (by norm_num : (0 : ℚ) ≤ (1 - 1/2) / (3/2))]
    norm_num
  refine ⟨h0, hh, ?_, ?_, ?_⟩
  · rw [h0, hh]
    norm_num
  · rw [h0]
    norm_num
  · rw [hh]
    norm_num

/-- Claim C6 amended: for every non-silent style and every duration of at
least 2 s (so that the 0.5 s fade-in and 1.5 s fade-out windows do not
overlap; for shorter durations the later fade-out branch overrides the
fade-in), the envelope is 0 at t = 0 and t = duration, rises monotonically
on [0, 0.5] reaching full amplitude 1 at t = 0.5 under t/0.5, equals 1 on
the plateau [0.5, duration - 1.5], falls monotonically on
[duration - 1.5, duration] to 0 under (duration - t)/1.5, and is clamped
to be nonnegative everywhere. -/
theorem envelope_fade_shape (d : ℚ) (hd : 2 ≤ d) :
    envelope d 0 = 0 ∧
    envelope d d = 0 ∧
    (∀ t₁ t₂ : ℚ, 0 ≤ t₁ → t₁ ≤ t₂ → t₂ ≤ 1/2 → envelope d t₁ ≤ envelope d t₂) ∧
    envelope d (1/2) = 1 ∧
    (∀ t : ℚ, 1/2 ≤ t → t ≤ d - 3/2 → envelope d t = 1) ∧
    (∀ t₁ t₂ : ℚ, d - 3/2 ≤ t₁ → t₁ ≤ t₂ → t₂ ≤ d → envelope d t₂ ≤ envelope d t₁) ∧
    (∀ t : ℚ, 0 ≤ envelope d t) ∧
    (∀ t : ℚ, 0 ≤ t → t < 1/2 → envelope d t = t / (1/2)) ∧
    (∀ t : ℚ, d - 3/2 < t → t ≤ d → envelope d t = (d - t) / (3/2)) := by
  have hplateau : ∀ t : ℚ, 1/2 ≤ t → t ≤ d - 3/2 → envelope d t = 1 := by
    intro t h1 h2
    rw [envelope, if_neg (by linarith), if_neg (by linarith)]
    norm_num
  have hrise : ∀ t : ℚ, 0 ≤ t → t < 1/2 → envelope d t = t / (1/2) := by
    intro t h0 h1
    rw [envelope, if_neg (by linarith), if_pos h1,
      max_eq_right (div_nonneg h0 (by norm_num))]
  have hfall : ∀ t : ℚ, d - 3/2 < t → t ≤ d → envelope d t = (d - t) / (3/2) := by
    intro t h1 h2
    rw [envelope, if_pos h1,
      max_eq_right (div_nonneg (by linarith : (0 : ℚ) ≤ d - t) (by norm_num))]
  refine ⟨?_, ?_, ?_, ?_, hplateau, ?_, ?_, hrise, hfall⟩
  · rw [hrise 0 le_rfl (by norm_num)]
    norm_num
  · rw [hfall d (by linarith) le_rfl]
    norm_num
  · intro t₁ t₂ h0 h12 h2
    by_cases ht2 : t₂ < 1/2
    · rw [hrise t₁ h0 (lt_of_le_of_lt h12 ht2), hrise t₂ (le_trans h0 h12) ht2]
      gcongr
    · push_neg at ht2
      have ht2' : t₂ = 1/2 := le_antisymm h2 ht2
      subst ht2'
      rw [hplateau (1/2) le_rfl (by linarith)]
      by_cases ht1 : t₁ < 1/2
      · rw [hrise t₁ h0 ht1, div_le_one (by norm_num)]
        linarith
      · push_neg at ht1
        rw [hplateau t₁ ht1 (by linarith)]
  · rw [hplateau (1/2) le_rfl (by linarith)]
  · intro t₁ t₂ h1 h12 h2
    by_cases ht1 : d - 3/2 < t₁
    · rw [hfall t₁ ht1 (le_trans h12 h2), hfall t₂ (lt_of_lt_of_le ht1 h12) h2]
      gcongr
    · push_neg at ht1
      have ht1' : t₁ = d - 3/2 := le_antisymm ht1 h1
      subst ht1'
      rw [hplateau (d - 3/2) (by linarith) le_rfl]
      by_cases ht2 : d - 3/2 < t₂
      · rw [hfall t₂ ht2 h2, div_le_one (by norm_num)]
        linarith
      · push_neg at ht2
        rw [hplateau t₂ (by linarith) ht2]
  · intro t
    rw [envelope]
    exact le_max_left 0 _

theorem envelope_fade_shape_witness :
    envelope (4 : ℚ) 0 = 0 ∧ envelope (4 : ℚ) 4 = 0 ∧ envelope (4 : ℚ) (1/2) = 1 :=
  ⟨(envelope_fade_shape 4 (by norm_num)).1,
   (envelope_fade_shape 4 (by norm_num)).2.1,
   (envelope_fade_shape 4 (by norm_num)).2.2.2.1⟩

/-! ## The three non-silent styles (src/unnamed/part_000 lines 183-245)

Per sample i the code computes time = i / sampleRate, a style-dependent
(sampleL, sampleR) pair, and stores sampleL * envelope and
sampleR * envelope.  Math.sin, Math.exp and the float modulo of JavaScript
are modelled by Real.sin, Real.exp and fmod below; Math.random() * 2 - 1 is
modelled by a per-call noise parameter n in [0, 1) entering as n * 2 - 1. -/

/-- JavaScript float remainder a % b for nonnegative a and positive b:
a - b * ⌊a / b⌋. -/
noncomputable def fmod (a b : ℝ) : ℝ := a - b * ⌊a / b⌋

/-- CALM: the slow modulator Math.sin(time * 0.2) * 0.5 + 0.5. -/
noncomputable def calmMod (t : ℝ) : ℝ := Real.sin (t * (2/10)) * (1/2) + 1/2

/-- CALM left channel: the 146.83 Hz tone weighted by 0.1 * mod, plus
(random*2-1)*0.005 noise, times the envelope. -/
noncomputable def calmL (d t n : ℝ) : ℝ :=
  (Real.sin (2 * Real.pi * (14683/100) * t) * (1/10) * calmMod t
    + (n * 2 - 1) * (5/1000)) * envelope d t

/-- CALM right channel: the 220 Hz tone weighted by 0.1 * (1 - mod), plus
(random*2-1)*0.005 noise, times the envelope. -/
noncomputable def calmR (d t n : ℝ) : ℝ :=
  (Real.sin (2 * Real.pi * 220 * t) * (1/10) * (1 - calmMod t)
    + (n * 2 - 1) * (5/1000)) * envelope d t

/-- Modelled from the spec's words for claim C7 (refinement comparison only):
a modulator that is sinusoidal at 0.2 Hz, i.e. sin(2*pi*0.2*t)*0.5 + 0.5. -/
noncomputable def calmModSpec (t : ℝ) : ℝ :=
  Real.sin (2 * Real.pi * (2/10) * t) * (1/2) + 1/2

/-- UPBEAT: beatPos = time % beatLen with beatLen = 60/120 = 0.5 s. -/
noncomputable def beatPos (t : ℝ) : ℝ := fmod t (60/120)

/-- UPBEAT kick: sin(2*pi*60*beatPos) * exp(-20*beatPos) during the first
0.1 s of each beat, 0 otherwise. -/
noncomputable def upbeatKick (t : ℝ) : ℝ :=
  if beatPos t < 1/10 then
    Real.sin (2 * Real.pi * 60 * beatPos t) * Real.exp (-20 * beatPos t)
  else 0

/-- UPBEAT hat: (random*2-1)*0.1 during the first 0.05 s of each half-beat
(time % (beatLen/2) < 0.05), 0 otherwise. -/
noncomputable def upbeatHat (t n : ℝ) : ℝ :=
  if fmod t ((60/120) / 2) < 5/100 then (n * 2 - 1) * (1/10) else 0

/-- UPBEAT chord: sin(2*pi*220*t) + sin(2*pi*330*t). -/
noncomputable def upbeatChord (t : ℝ) : ℝ :=
  Real.sin (2 * Real.pi * 220 * t) + Real.sin (2 * Real.pi * 330 * t)

/-- UPBEAT gate: Math.sin(2*pi*(bpm/60*2)*t) > 0 ? 1 : 0, with bpm = 120,
a square-wave gate at 4 Hz, twice the 2 Hz beat frequency. -/
noncomputable def upbeatGate (t : ℝ) : ℝ :=
  if 0 < Real.sin (2 * Real.pi * (120/60 * 2) * t) then 1 else 0

/-- UPBEAT left channel: kick*0.4 + hat + chord*0.05*gate, times envelope. -/
noncomputable def upbeatL (d t n : ℝ) : ℝ :=
  (upbeatKick t * (4/10) + upbeatHat t n
    + upbeatChord t * (5/100) * upbeatGate t) * envelope d t

/-- UPBEAT right channel: kick*0.4 + hat + chord*0.05*(1-gate), times
envelope. -/
noncomputable def upbeatR (d t n : ℝ) : ℝ :=
  (upbeatKick t * (4/10) + upbeatHat t n
    + upbeatChord t * (5/100) * (1 - upbeatGate t)) * envelope d t

/-- FOCUS left channel: sin(2*pi*200*t) * 0.1, times envelope. -/
noncomputable def focusL (d t : ℝ) : ℝ :=
  Real.sin (2 * Real.pi * 200 * t) * (1/10) * envelope d t

/-- FOCUS right channel: sin(2*pi*204*t) * 0.1, times envelope. -/
noncomputable def focusR (d t : ℝ) : ℝ :=
  Real.sin (2 * Real.pi * 204 * t) * (1/10) * envelope d t

/-- Claim C10: for every duration and every nonnegative sample time the fade
envelope multiplier lies in [0, 1]; consequently multiplying any pre-envelope
sample by it can only shrink its magnitude, and in particular every
FOCUS-style output sample has absolute value at most 0.1. -/
theorem envelope_bounds_and_focus (d t : ℝ) (ht : 0 ≤ t) :
    0 ≤ envelope d t ∧ envelope d t ≤ 1 ∧
    (∀ x : ℝ, |x * envelope d t| ≤ |x|) ∧
    |focusL d t| ≤ 1/10 ∧ |focusR d t| ≤ 1/10 := by
  have h0 : 0 ≤ envelope d t := le_max_left 0 _
  have h1 : envelope d t ≤ 1 := by
    rw [envelope]
    apply max_le (by norm_num)
    split_ifs with hA hB
    · rw [div_le_one (by norm_num)]
      linarith
    · rw [div_le_one (by norm_num)]
      linarith
    · exact le_rfl
  have hshrink : ∀ x : ℝ, |x * envelope d t| ≤ |x| := by
    intro x
    rw [abs_mul, abs_of_nonneg h0]
    exact mul_le_of_le_one_right (abs_nonneg x) h1
  have hfocus : ∀ f : ℝ, |Real.sin (2 * Real.pi * f * t) * (1/10) * envelope d t| ≤ 1/10 := by
    intro f
    have hs : |Real.sin (2 * Real.pi * f * t)| ≤ 1 := Real.abs_sin_le_one _
    have habs : |Real.sin (2 * Real.pi * f * t) * (1/10)| ≤ 1/10 := by
      rw [abs_mul]
      rw [show |(1/10 : ℝ)| = 1/10 from abs_of_nonneg (by norm_num)]
      nlinarith
    calc |Real.sin (2 * Real.pi * f * t) * (1/10) * envelope d t|
        ≤ |Real.sin (2 * Real.pi * f * t) * (1/10)| := hshrink _
      _ ≤ 1/10 := habs
  exact ⟨h0, h1, hshrink, hfocus 200, hfocus 204⟩

theorem envelope_bounds_and_focus_witness :
    0 ≤ envelope (5 : ℝ) 1 ∧ envelope (5 : ℝ) 1 ≤ 1 ∧ |focusL 5 1| ≤ 1/10 :=
  ⟨(envelope_bounds_and_focus 5 1 (by norm_num)).1,
   (envelope_bounds_and_focus 5 1 (by norm_num)).2.1,
   (envelope_bounds_and_focus 5 1 (by norm_num)).2.2.2.1⟩

/-- Claim C7 counterexample: the code's modulator is Math.sin(time * 0.2) —
angular frequency 0.2 rad/s — not a 0.2 Hz sinusoid: at t = 5/2 the claimed
0.2 Hz modulator sin(2*pi*0.2*t)*0.5+0.5 equals 1/2 while the code's
modulator sin(0.2*t)*0.5+0.5 = sin(0.5)*0.5+0.5 > 1/2.  Moreover, as the
modulator rises from t = 0 to t = 5/2, the tone-2 weight 0.1*(1 - mod)
on the right channel strictly falls, contradicting "more of tone 2 to the
right channel as the modulator rises". -/
theorem calm_modulator_cex :
    calmModSpec (5/2) = 1/2 ∧
    calmMod 0 = 1/2 ∧
    1/2 < calmMod (5/2) ∧
    calmMod (5/2) ≠ calmModSpec (5/2) ∧
    (1/10) * (1 - calmMod (5/2)) < (1/10) * (1 - calmMod 0) := by
  have hspec : calmModSpec (5/2) = 1/2 := by
    rw [calmModSpec, show 2 * Real.pi * (2/10) * (5/2) = Real.pi from by ring,
      Real.sin_pi]
    norm_num
  have h0 : calmMod 0 = 1/2 := by
    rw [calmMod]
    norm_num
  have hhalf : (0 : ℝ) < Real.sin (1/2) :=
    Real.sin_pos_of_pos_of_lt_pi (by norm_num) (by linarith [Real.pi_gt_three])
  have h52 : calmMod (5/2) = Real.sin (1/2) * (1/2) + 1/2 := by
    rw [calmMod]
    norm_num
  refine ⟨hspec, h0, ?_, ?_, ?_⟩
  · rw [h52]
    linarith
  · rw [h52, hspec]
    intro hcontra
    linarith
  · rw [h52, h0]
    linarith

/-- Claim C7 amended: CALM cross-fades the 146.83 Hz and 220.00 Hz sine
tones by the modulator sin(0.2*t)*0.5+0.5 (angular frequency 0.2 rad/s,
about 0.032 Hz, not 0.2 Hz): the tone-1 left-channel weight 0.1*mod rises
and the tone-2 right-channel weight 0.1*(1-mod) falls as the modulator
rises, the two weights always summing to the full 0.1 amplitude; the
modulator stays in [0, 1]; and each channel receives its own uniform noise
term (random*2-1)*0.005 bounded by 0.005 in absolute value. -/
theorem calm_crossfade (t₁ t₂ : ℝ) (h : calmMod t₁ ≤ calmMod t₂) :
    (1/10) * calmMod t₁ ≤ (1/10) * calmMod t₂ ∧
    (1/10) * (1 - calmMod t₂) ≤ (1/10) * (1 - calmMod t₁) ∧
    (∀ t : ℝ, (1/10) * calmMod t + (1/10) * (1 - calmMod t) = 1/10) ∧
    (∀ t : ℝ, 0 ≤ calmMod t ∧ calmMod t ≤ 1) ∧
    (∀ n : ℝ, 0 ≤ n → n < 1 → |(n * 2 - 1) * (5/1000)| ≤ 5/1000) ∧
    (∀ d t n : ℝ, calmL d t n =
      (Real.sin (2 * Real.pi * (14683/100) * t) * ((1/10) * calmMod t)
        + (n * 2 - 1) * (5/1000)) * envelope d t) ∧
    (∀ d t n : ℝ, calmR d t n =
      (Real.sin (2 * Real.pi * 220 * t) * ((1/10) * (1 - calmMod t))
        + (n * 2 - 1) * (5/1000)) * envelope d t) := by
  refine ⟨by linarith, by linarith, fun t => by ring, fun t => ?_, fun n hn0 hn1 => ?_,
    fun d t n => by rw [calmL]; ring, fun d t n => by rw [calmR]; ring⟩
  · have hs1 : Real.sin (t * (2/10)) ≤ 1 := Real.sin_le_one _
    have hs2 : -1 ≤ Real.sin (t * (2/10)) := Real.neg_one_le_sin _
    rw [calmMod]
    constructor <;> nlinarith
  · have habs : |n * 2 - 1| ≤ 1 := abs_le.mpr ⟨by linarith, by linarith⟩
    rw [abs_mul, show |(5/1000 : ℝ)| = 5/1000 from abs_of_nonneg (by norm_num)]
    nlinarith

theorem calm_crossfade_witness :
    (1/10) * calmMod 0 ≤ (1/10) * calmMod (5/2) ∧
    (1/10) * (1 - calmMod (5/2)) ≤ (1/10) * (1 - calmMod 0) := by
  have h0 : calmMod 0 = 1/2 := by
    rw [calmMod]
    norm_num
  have hhalf : (0 : ℝ) < Real.sin (1/2) :=
    Real.sin_pos_of_pos_of_lt_pi (by norm_num) (by linarith [Real.pi_gt_three])
  have h52 : calmMod (5/2) = Real.sin (1/2) * (1/2) + 1/2 := by
    rw [calmMod]
    norm_num
  have h : calmMod 0 ≤ calmMod (5/2) := by
    rw [h0, h52]
    linarith
  exact ⟨(calm_crossfade 0 (5/2) h).1, (calm_crossfade 0 (5/2) h).2.1⟩

/-- Claim C8: UPBEAT structure.  The kick equals
sin(2*pi*60*beatPos)*exp(-20*beatPos) during the first 0.1 s of each 0.5 s
beat period and is 0 outside that window, and repeats with the 0.5 s beat
period; the gate is a square wave with values in {0, 1} at twice the beat
frequency; the left channel carries the 0.05-scaled chord gated by it and
the right channel the complementary amount, the two summing to the full
0.05-scaled chord; kick and hat enter both channels identically (the
channels differ only in their chord terms); and the noise hat has amplitude
(random*2-1)*0.1, bounded by 0.1, active exactly during the first 0.05 s of
each half-beat. -/
theorem upbeat_structure (d t n : ℝ) :
    (beatPos t < 1/10 →
      upbeatKick t = Real.sin (2 * Real.pi * 60 * beatPos t) * Real.exp (-20 * beatPos t)) ∧
    (1/10 ≤ beatPos t → upbeatKick t = 0) ∧
    upbeatKick (t + 60/120) = upbeatKick t ∧
    (upbeatGate t = 1 ∨ upbeatGate t = 0) ∧
    (upbeatChord t * (5/100) * upbeatGate t + upbeatChord t * (5/100) * (1 - upbeatGate t)
      = upbeatChord t * (5/100)) ∧
    (upbeatL d t n - upbeatChord t * (5/100) * upbeatGate t * envelope d t
      = upbeatR d t n - upbeatChord t * (5/100) * (1 - upbeatGate t) * envelope d t) ∧
    (fmod t ((60/120) / 2) < 5/100 → upbeatHat t n = (n * 2 - 1) * (1/10)) ∧
    (5/100 ≤ fmod t ((60/120) / 2) → upbeatHat t n = 0) ∧
    (0 ≤ n → n < 1 → |upbeatHat t n| ≤ 1/10) := by
  have hper : beatPos (t + 60/120) = beatPos t := by
    rw [beatPos, beatPos, fmod, fmod,
      show (t + 60/120) / ((60 : ℝ)/120) = t / ((60 : ℝ)/120) + 1 from by ring,
      Int.floor_add_one]
    push_cast
    ring
  refine ⟨fun h => by rw [upbeatKick, if_pos h],
    fun h => by rw [upbeatKick, if_neg (not_lt.mpr h)],
    by rw [upbeatKick, upbeatKick, hper],
    by rw [upbeatGate]; split_ifs <;> simp,
    by ring,
    by rw [upbeatL, upbeatR]; ring,
    fun h => by rw [upbeatHat, if_pos h],
    fun h => by rw [upbeatHat, if_neg (not_lt.mpr h)],
    fun hn0 hn1 => ?_⟩
  rw [upbeatHat]
  split_ifs with hw
  · have habs : |n * 2 - 1| ≤ 1 := abs_le.mpr ⟨by linarith, by linarith⟩
    rw [abs_mul, show |(1/10 : ℝ)| = 1/10 from abs_of_nonneg (by norm_num)]
    nlinarith
  · simp

theorem upbeat_structure_witness :
    upbeatKick (0 + 60/120) = upbeatKick 0 ∧
    upbeatKick 0 = Real.sin (2 * Real.pi * 60 * beatPos 0) * Real.exp (-20 * beatPos 0) := by
  have hbeat : beatPos 0 < 1/10 := by
    rw [beatPos, fmod]
    norm_num
  exact ⟨(upbeat_structure 3 0 (1/2)).2.2.1, (upbeat_structure 3 0 (1/2)).1 hbeat⟩

/-! ## handleDownload (src/components/Player.tsx lines 135-145)

The suggested filename is
title.replace(/[^a-z0-9]/gi, UNDERSCORE).toLowerCase() with the fixed
fallback daily_briefing when the sanitized string is empty, followed by the
.wav extension.  The case-insensitive character class [^a-z0-9] matches
every character that is not an ASCII letter or digit, and each match is
replaced by an underscore. -/

/-- Whether a character matches [a-z0-9] case-insensitively: an ASCII letter
or digit. -/
def isAlnumJS (c : Char) : Bool := c.isAlpha || c.isDigit

/-- One character of title.replace(/[^a-z0-9]/gi, underscore). -/
def sanitizeChar (c : Char) : Char := if isAlnumJS c then c else '_'

/-- safeTitle: the replaced-then-lowercased title, or daily_briefing when
that string is empty (the || fallback on the empty string). -/
def safeTitle (title : List Char) : List Char :=
  let s := (title.map sanitizeChar).map Char.toLower
  if s.isEmpty then String.toList "daily_briefing" else s

/-- The suggested download filename: safeTitle followed by .wav. -/
def downloadName (title : List Char) : List Char :=
  safeTitle title ++ String.toList ".wav"

/-- Modelled from the spec's words for claim C9 (refinement comparison only):
every non-alphanumeric character replaced by the empty string (removed),
then lowercased, with the fixed default when the result is empty, plus the
.wav extension. -/
def downloadNameSpec (title : List Char) : List Char :=
  let s := (title.filter fun c => isAlnumJS c).map Char.toLower
  (if s.isEmpty then String.toList "daily_briefing" else s) ++ String.toList ".wav"

/-- Claim C9 counterexample: for the title "A B" the code produces
"a_b.wav" — the space is replaced by an underscore, not removed — while the
claimed remove-non-alphanumerics transform would produce "ab.wav". -/
theorem download_name_cex :
    downloadName (String.toList "A B") = String.toList "a_b.wav" ∧
    downloadNameSpec (String.toList "A B") = String.toList "ab.wav" ∧
    downloadName (String.toList "A B") ≠ downloadNameSpec (String.toList "A B") := by
  refine ⟨by decide, by decide, by decide⟩

/-- Claim C9 amended: the suggested filename is the title with every
non-alphanumeric character replaced by an underscore, then lowercased, with
".wav" appended; since the replacement preserves length, the fixed fallback
name daily_briefing is used exactly when the title itself is empty. -/
theorem download_name_amended (title : List Char) :
    downloadName title =
      (if title = [] then String.toList "daily_briefing"
       else title.map fun c => (sanitizeChar c).toLower) ++ String.toList ".wav" := by
  rw [downloadName, safeTitle]
  by_cases h : title = []
  · subst h
    simp
  · rw [if_neg (by simp [List.isEmpty_iff, h]), if_neg h, List.map_map]
    rfl

theorem mix_duration_preservation_witness :
    musicFrameCount 24000 = renderLength 24000 ∧
    mixOutputDuration 24000 ≤ voiceDuration 24000 :=
  ⟨(mix_duration_preservation 24000).1, (mix_duration_preservation 24000).2.2.1⟩

theorem download_name_amended_witness :
    downloadName (String.toList "Ab") =
      (if String.toList "Ab" = ([] : List Char) then String.toList "daily_briefing"
       else (String.toList "Ab").map fun c => (sanitizeChar c).toLower) ++ String.toList ".wav" :=
  download_name_amended (String.toList "Ab")

end DailyBriefing
